import Mathlib

/-!
Formal model of the thread-pool engines in art's thread_pool.cc: the basic
FIFO `ThreadPool` and the `WorkStealingThreadPool`.  Pure state-passing
embedding: each C++ member function becomes a Lean function on an explicit
`PoolState`; the uint64 counters are `Nat` reduced mod `2 ^ 64`; condition
variable calls are modelled as emitted events; the blocking loop of
`GetTask` is modelled one iteration at a time (`getTaskIter` up to the
point of returning or blocking, `getTaskWake` for the post-wake tail).
-/

namespace ThreadPoolModel

/-- Modulus of the C++ `uint64_t` counters (`start_time_`, `total_wait_time_`,
`wait_start`, `wait_end`). -/
def U64 : Nat := 2 ^ 64

/-- uint64 addition: wraps mod `2 ^ 64`. -/
def u64add (a b : Nat) : Nat := (a + b) % U64

/-- uint64 subtraction `a - b`: two's-complement wraparound mod `2 ^ 64`. -/
def u64sub (a b : Nat) : Nat := (a % U64 + (U64 - b % U64)) % U64

/-- Condition-variable calls performed by the pool, in program order:
`task_queue_condition_.Signal`, `task_queue_condition_.Broadcast`,
`completion_condition_.Broadcast`. -/
inductive CondEvent where
  | signalTaskAvailable
  | broadcastTaskAvailable
  | broadcastCompletion
deriving DecidableEq, Repr

/-- The shared state of `ThreadPool` guarded by `task_queue_lock_`:
`tasks_` (front = queue head, tasks named by `Nat` ids), `started_`,
`shutting_down_`, `waiting_count_`, `start_time_`, `total_wait_time_`,
and the fixed thread count `GetThreadCount()`. -/
structure PoolState where
  tasks : List Nat
  started : Bool
  shuttingDown : Bool
  waitingCount : Nat
  startTime : Nat
  totalWaitTime : Nat
  threadCount : Nat
deriving DecidableEq, Repr

/-- `ThreadPool::ThreadPool` (thread_pool.cc lines 54-65): the initializer
list sets only `started_(false)`, `shutting_down_(false)` and
`waiting_count_(0)`; `start_time_` and `total_wait_time_` are left
uninitialized, modelled by the arbitrary junk parameters. -/
def mkThreadPool (numThreads junkStartTime junkTotalWaitTime : Nat) : PoolState :=
  { tasks := []
    started := false
    shuttingDown := false
    waitingCount := 0
    startTime := junkStartTime
    totalWaitTime := junkTotalWaitTime
    threadCount := numThreads }

/-- `ThreadPool::AddTask` (lines 45-52): push_back the task; if
`waiting_count_ != 0` signal `task_queue_condition_` once. -/
def addTask (s : PoolState) (t : Nat) : PoolState × List CondEvent :=
  ({ s with tasks := s.tasks ++ [t] },
   if s.waitingCount ≠ 0 then [CondEvent.signalTaskAvailable] else [])

/-- `ThreadPool::StartWorkers` (lines 81-87): set `started_`, broadcast
`task_queue_condition_`, record `start_time_ = NanoTime()` (the `now`
parameter), reset `total_wait_time_` to 0. -/
def startWorkers (s : PoolState) (now : Nat) : PoolState × List CondEvent :=
  ({ s with started := true, startTime := now, totalWaitTime := 0 },
   [CondEvent.broadcastTaskAvailable])

/-- `ThreadPool::StopWorkers` (lines 89-92): set `started_ = false`. -/
def stopWorkers (s : PoolState) : PoolState :=
  { s with started := false }

/-- `ThreadPool::TryGetTaskLocked` (lines 123-130): if `started_` and the
queue is non-empty, pop and return the front; else return null. -/
def tryGetTaskLocked (s : PoolState) : Option Nat × PoolState :=
  match s.started, s.tasks with
  | true, t :: rest => (some t, { s with tasks := rest })
  | true, [] => (none, s)
  | false, _ => (none, s)

/-- `ThreadPool::TryGetTask` (lines 118-121): take `task_queue_lock_` and
delegate to `TryGetTaskLocked`. -/
def tryGetTask (s : PoolState) : Option Nat × PoolState :=
  tryGetTaskLocked s

/-- Outcome of one iteration of the `GetTask` loop: either the function
returns (a task or null), or the thread is about to block on
`task_queue_condition_` with the listed condition-variable calls already
performed. -/
inductive GetTaskStep where
  | ret : Option Nat → PoolState → List CondEvent → GetTaskStep
  | blocked : PoolState → List CondEvent → GetTaskStep
deriving DecidableEq, Repr

/-- One iteration of the loop in `ThreadPool::GetTask` (lines 94-116) up to
the return or the `task_queue_condition_.Wait` call: check
`IsShuttingDown()`, try `TryGetTaskLocked`, otherwise increment
`waiting_count_` and broadcast `completion_condition_` when
`waiting_count_ == GetThreadCount() && tasks_.empty()`. -/
def getTaskIter (s : PoolState) : GetTaskStep :=
  if s.shuttingDown then
    GetTaskStep.ret none s []
  else
    match tryGetTaskLocked s with
    | (some t, s1) => GetTaskStep.ret (some t) s1 []
    | (none, s1) =>
      let s2 := { s1 with waitingCount := s1.waitingCount + 1 }
      GetTaskStep.blocked s2
        (if s2.waitingCount = s2.threadCount ∧ s2.tasks = [] then
          [CondEvent.broadcastCompletion]
        else [])

/-- The uint64 amount one wait adds to `total_wait_time_` (line 110):
`wait_end - std::max(wait_start, start_time_)` in `uint64_t` arithmetic. -/
def waitIncrement (waitStart waitEnd startTime : Nat) : Nat :=
  u64sub waitEnd (max waitStart startTime)

/-- The tail of a `GetTask` loop iteration after waking from
`task_queue_condition_.Wait` (lines 107-111): accumulate the uint64
difference into `total_wait_time_` and decrement `waiting_count_`. -/
def getTaskWake (s : PoolState) (waitStart waitEnd : Nat) : PoolState :=
  { s with
    totalWaitTime := u64add s.totalWaitTime (waitIncrement waitStart waitEnd s.startTime)
    waitingCount := s.waitingCount - 1 }

/-- The drain loop of `ThreadPool::Wait` (lines 133-137): repeatedly
`TryGetTask`; each obtained task is run and finalized (collected in order in
the returned list).  The fuel bounds the iterations; each successful
`TryGetTask` shortens the queue, so the initial queue length suffices. -/
def waitDrainFuel : Nat → PoolState → PoolState × List Nat
  | 0, s => (s, [])
  | fuel + 1, s =>
    match tryGetTask s with
    | (none, s1) => (s1, [])
    | (some t, s1) =>
      let r := waitDrainFuel fuel s1
      (r.1, t :: r.2)

/-- The drain loop of `ThreadPool::Wait`, run to completion. -/
def waitDrain (s : PoolState) : PoolState × List Nat :=
  waitDrainFuel s.tasks.length s

/-- The exit condition of the `completion_condition_` loop in
`ThreadPool::Wait` (line 141, negated): `shutting_down_` or
(`waiting_count_ == GetThreadCount()` and `tasks_` empty). -/
def waitExitCond (s : PoolState) : Bool :=
  s.shuttingDown || (s.waitingCount == s.threadCount && s.tasks.isEmpty)

/-- `ThreadPool::Wait` (lines 132-144): the caller-side drain followed by
blocking on `completion_condition_` until `waitExitCond`.  The source
accepts the bool parameter `do_work` but never reads it: the drain loop at
lines 133-137 is unconditional.  Returns the post-drain state and the tasks
the caller ran and finalized, in order. -/
def poolWait (s : PoolState) (do_work : Bool) : PoolState × List Nat :=
  waitDrain s

/-- The pool operations that mutate the `ThreadPool` state, for reasoning
about operation sequences. -/
inductive PoolOp where
  | add (t : Nat)
  | start (now : Nat)
  | stop
  | tryGet
  | getIter
  | wake (waitStart waitEnd : Nat)
deriving DecidableEq, Repr

/-- Applies one pool operation, keeping only the resulting state. -/
def applyOp (s : PoolState) : PoolOp → PoolState
  | PoolOp.add t => (addTask s t).1
  | PoolOp.start now => (startWorkers s now).1
  | PoolOp.stop => stopWorkers s
  | PoolOp.tryGet => (tryGetTask s).2
  | PoolOp.getIter =>
    match getTaskIter s with
    | GetTaskStep.ret _ s1 _ => s1
    | GetTaskStep.blocked s1 _ => s1
  | PoolOp.wake ws we => getTaskWake s ws we

/-- Applies a sequence of pool operations in order. -/
def applyOps (s : PoolState) : List PoolOp → PoolState
  | [] => s
  | op :: rest => applyOps (applyOp s op) rest

/-- Loop body of `WorkStealingThreadPool::FindTaskToStealFrom`
(lines 241-259), one recursive step per `for` iteration.  `ws` lists each
worker's `task_` field (`current_task`) by worker index; `idx` is
`steal_index_`.  Each step increments `steal_index_`, wraps it by
subtracting `thread_count` when it reaches it, and reads that worker's
`task_`; the first non-null one is returned together with the new cursor. -/
def findLoop (ws : List (Option Nat)) : Nat → Nat → Option Nat × Nat
  | idx, 0 => (none, idx)
  | idx, fuel + 1 =>
    let idx1 := idx + 1
    let idx2 := if ws.length ≤ idx1 then idx1 - ws.length else idx1
    match ws.getD idx2 none with
    | some t => (some t, idx2)
    | none => findLoop ws idx2 fuel

/-- `WorkStealingThreadPool::FindTaskToStealFrom` (lines 241-259): scan up
to `thread_count` candidates starting after the persistent cursor
`steal_index_`.  Returns the found task (or none) and the final cursor. -/
def findTaskToStealFrom (ws : List (Option Nat)) (idx : Nat) : Option Nat × Nat :=
  findLoop ws idx ws.length

/-- The decrement used at both stealing-loop sites (lines 206 and 218):
`finalize = !--ref_count_` — the new count, and whether it reached 0. -/
def decRef (c : Nat) : Nat × Bool :=
  (c - 1, c - 1 == 0)

/-- Events of a ref-count decrement block in `WorkStealingWorker::Run`. -/
inductive StealEvent where
  | acquireStealLock
  | decrementRef
  | releaseStealLock
  | finalizeTask
deriving DecidableEq, Repr

/-- Lines 215-223 (and identically 203-211) of `WorkStealingWorker::Run`:
under `work_steal_lock_` decrement `ref_count_` recording
`finalize = !--ref_count_`; after the lock is released, call `Finalize`
iff `finalize`.  Returns the new count and the events in program order. -/
def decrementAndMaybeFinalize (c : Nat) : Nat × List StealEvent :=
  ((decRef c).1,
   [StealEvent.acquireStealLock, StealEvent.decrementRef, StealEvent.releaseStealLock]
     ++ (if (decRef c).2 then [StealEvent.finalizeTask] else []))

/-- Operations performed on one `WorkStealingTask`'s `ref_count_` under
`work_steal_lock_`: `inc` is `++ref_count_` (lines 169 and 193), `dec` is
the finalize-iff-zero decrement (lines 206 and 218). -/
inductive RefOp where
  | inc
  | dec
deriving DecidableEq, Repr

/-- Runs a `ref_count_` history from an initial count: returns the final
count and the number of `Finalize` calls performed (one per decrement whose
`finalize` flag is set). -/
def runRefOps : Nat → List RefOp → Nat × Nat
  | c, [] => (c, 0)
  | c, RefOp.inc :: rest => runRefOps (c + 1) rest
  | c, RefOp.dec :: rest =>
    ((runRefOps (decRef c).1 rest).1,
     (if (decRef c).2 then 1 else 0) + (runRefOps (decRef c).1 rest).2)

/-- The reachability invariant on a `ref_count_` history (spec §3: the
count is at least 1 whenever the task is still referenced): every operation
happens while the current count is at least 1. -/
def validRefOps : Nat → List RefOp → Bool
  | _, [] => true
  | c, RefOp.inc :: rest => decide (1 ≤ c) && validRefOps (c + 1) rest
  | c, RefOp.dec :: rest => decide (1 ≤ c) && validRefOps (c - 1) rest

/-- A sample started pool state with two queued tasks, used to instantiate
theorems at concrete inputs. -/
def sampleState : PoolState :=
  { tasks := [4, 6]
    started := true
    shuttingDown := false
    waitingCount := 0
    startTime := 0
    totalWaitTime := 0
    threadCount := 2 }

/-! ## Claim C7: AddTask -/

/-- Claim C7: `AddTask` appends the task at the tail of the queue,
preserving the previously queued tasks and their order and the rest of the
state, and signals `task_available` exactly once iff `waiting_count > 0` at
the time of the call; it never broadcasts and never signals when no worker
is waiting. -/
theorem addTask_spec (s : PoolState) (t : Nat) :
    (addTask s t).1.tasks = s.tasks ++ [t]
  ∧ (addTask s t).1.started = s.started
  ∧ (addTask s t).1.shuttingDown = s.shuttingDown
  ∧ (addTask s t).1.waitingCount = s.waitingCount
  ∧ (addTask s t).1.totalWaitTime = s.totalWaitTime
  ∧ ((addTask s t).2 =
      if 0 < s.waitingCount then [CondEvent.signalTaskAvailable] else [])
  ∧ CondEvent.broadcastTaskAvailable ∉ (addTask s t).2
  ∧ CondEvent.broadcastCompletion ∉ (addTask s t).2
  ∧ (addTask s t).2.length ≤ 1 := by
  by_cases h : s.waitingCount = 0 <;>
    simp [addTask, h, Nat.pos_iff_ne_zero]

/-- Witness for C7 at a concrete pool and task. -/
theorem addTask_spec_witness :
    (addTask sampleState 9).1.tasks = sampleState.tasks ++ [9] :=
  (addTask_spec sampleState 9).1

/-! ## Claim C8: StartWorkers idempotent -/

/-- Claim C8: `StartWorkers` is idempotent: calling it twice in succession
yields exactly the state of a single call at the later time — `started` is
true, `start_time` holds the time of the latest call, `total_wait_time` is
0 — and each call broadcasts `task_available`. -/
theorem startWorkers_idempotent (s : PoolState) (t1 t2 : Nat) :
    startWorkers (startWorkers s t1).1 t2 = startWorkers s t2
  ∧ (startWorkers s t1).1.started = true
  ∧ (startWorkers s t1).1.startTime = t1
  ∧ (startWorkers s t1).1.totalWaitTime = 0
  ∧ (startWorkers s t1).2 = [CondEvent.broadcastTaskAvailable] := by
  refine ⟨?_, rfl, rfl, rfl, rfl⟩
  simp [startWorkers]

/-! ## Claim C9: TryGetTask ignores shutting_down -/

/-- Claim C9: `TryGetTask` does not consult `shutting_down`: whenever
`started` is true and the queue is non-empty it pops and returns the queue
head — even when `shutting_down` is true, since the result is invariant
under flipping that flag — and it returns none exactly when `started` is
false or the queue is empty. -/
theorem tryGetTask_spec (s : PoolState) :
    (∀ t rest, s.started = true → s.tasks = t :: rest →
      tryGetTask s = (some t, { s with tasks := rest }))
  ∧ ((tryGetTask s).1 = none ↔ (s.started = false ∨ s.tasks = []))
  ∧ (∀ b, (tryGetTask { s with shuttingDown := b }).1 = (tryGetTask s).1
      ∧ (tryGetTask { s with shuttingDown := b }).2.tasks = (tryGetTask s).2.tasks) := by
  refine ⟨?_, ?_, ?_⟩
  · intro t rest hs ht
    simp [tryGetTask, tryGetTaskLocked, hs, ht]
  · cases hs : s.started <;> cases ht : s.tasks <;>
      simp [tryGetTask, tryGetTaskLocked, hs, ht]
  · intro b
    cases hs : s.started <;> cases ht : s.tasks <;>
      simp [tryGetTask, tryGetTaskLocked, hs, ht]

/-- Witness for C9: on a started, non-shutting-down pool with queue
`[4, 6]`, `TryGetTask` pops and returns 4. -/
theorem tryGetTask_spec_witness :
    tryGetTask sampleState = (some 4, { sampleState with tasks := [6] }) :=
  (tryGetTask_spec sampleState).1 4 [6] rfl rfl

/-! ## Claim C4: GetTask loop iteration -/

/-- Claim C4: a `GetTask` loop iteration returns none exactly when
`shutting_down` is observed true; otherwise, with `started` true and a
non-empty queue, it removes and returns the head of the FIFO queue; and
otherwise it increments `waiting_count` and broadcasts the quiescence
(completion) condition exactly when the new `waiting_count` equals the
worker count and the queue is empty, before blocking on `task_available`. -/
theorem getTask_iter_spec (s : PoolState) :
    (getTaskIter s = GetTaskStep.ret none s [] ↔ s.shuttingDown = true)
  ∧ (∀ t rest, s.shuttingDown = false → s.started = true → s.tasks = t :: rest →
      getTaskIter s = GetTaskStep.ret (some t) { s with tasks := rest } [])
  ∧ (s.shuttingDown = false → (s.started = false ∨ s.tasks = []) →
      getTaskIter s =
        GetTaskStep.blocked { s with waitingCount := s.waitingCount + 1 }
          (if s.waitingCount + 1 = s.threadCount ∧ s.tasks = [] then
            [CondEvent.broadcastCompletion]
          else [])) := by
  refine ⟨?_, ?_, ?_⟩
  · constructor
    · intro h
      by_contra hsd
      rw [Bool.not_eq_true] at hsd
      cases hs : s.started <;> cases ht : s.tasks <;>
        simp [getTaskIter, tryGetTaskLocked, hsd, hs, ht] at h
    · intro h
      simp [getTaskIter, h]
  · intro t rest hsd hs ht
    simp [getTaskIter, tryGetTaskLocked, hsd, hs, ht]
  · intro hsd h
    rcases h with hs | ht
    · cases ht : s.tasks <;>
        simp [getTaskIter, tryGetTaskLocked, hsd, hs, ht]
    · cases hs : s.started <;>
        simp [getTaskIter, tryGetTaskLocked, hsd, hs, ht]

/-- Witness for C4: on a started pool with queue `[4, 6]` the iteration
pops and returns 4. -/
theorem getTask_iter_spec_witness :
    getTaskIter sampleState =
      GetTaskStep.ret (some 4) { sampleState with tasks := [6] } [] :=
  (getTask_iter_spec sampleState).2.1 4 [6] rfl rfl rfl

/-! ## Claim C1: Wait and do_work -/

/-- With enough fuel (the queue length), the drain loop of `Wait` on a
started pool pops, runs and finalizes every queued task in order and leaves
the queue empty. -/
theorem waitDrainFuel_started : ∀ (n : Nat) (s : PoolState), s.started = true →
    s.tasks.length ≤ n → waitDrainFuel n s = ({ s with tasks := [] }, s.tasks) := by
  intro n
  induction n with
  | zero =>
    intro s hs hl
    obtain ⟨tasks, st, sd, wc, stt, tw, tc⟩ := s
    simp only at hs hl
    subst hs
    cases tasks with
    | nil => simp [waitDrainFuel]
    | cons t rest => simp at hl
  | succ n ih =>
    intro s hs hl
    obtain ⟨tasks, st, sd, wc, stt, tw, tc⟩ := s
    simp only at hs hl
    subst hs
    cases tasks with
    | nil => simp [waitDrainFuel, tryGetTask, tryGetTaskLocked]
    | cons t rest =>
      have hrest : rest.length ≤ n := by
        simp at hl
        omega
      have h1 := ih ⟨rest, true, sd, wc, stt, tw, tc⟩ rfl (by simpa using hrest)
      simp [waitDrainFuel, tryGetTask, tryGetTaskLocked, h1]

/-- On a non-started pool the drain loop of `Wait` pops nothing. -/
theorem waitDrainFuel_not_started (n : Nat) (s : PoolState) (hs : s.started = false) :
    waitDrainFuel n s = (s, []) := by
  cases n <;> simp [waitDrainFuel, tryGetTask, tryGetTaskLocked, hs]

/-- Claim C1 counterexample: on a started pool with queued tasks `[4, 6]`,
`Wait` called with `do_work = false` still pops and executes both tasks
before blocking — the claim says it pops and executes none. -/
theorem wait_do_work_false_cex :
    (poolWait sampleState false).2 = [4, 6] ∧ (poolWait sampleState false).2 ≠ [] := by
  constructor <;> decide

/-- Claim C1 amended: `Wait` performs the caller-side drain unconditionally;
the `do_work` argument is never read, so the result is independent of it.
On a started pool the drain pops, runs and finalizes every queued task in
FIFO order and empties the queue; on a non-started pool it pops nothing
(because `TryGetTask` checks `started`), and then blocks on the quiescence
condition. -/
theorem wait_drain_spec (s : PoolState) (b : Bool) :
    poolWait s b = poolWait s true
  ∧ (s.started = true →
      (poolWait s b).2 = s.tasks ∧ (poolWait s b).1 = { s with tasks := [] })
  ∧ (s.started = false →
      (poolWait s b).2 = [] ∧ (poolWait s b).1 = s) := by
  refine ⟨rfl, ?_, ?_⟩
  · intro hs
    have h1 := waitDrainFuel_started s.tasks.length s hs le_rfl
    simp [poolWait, waitDrain, h1]
  · intro hs
    have h1 := waitDrainFuel_not_started s.tasks.length s hs
    simp [poolWait, waitDrain, h1]

/-- Witness for the amended C1 at a concrete started pool. -/
theorem wait_drain_spec_witness :
    (poolWait sampleState false).2 = sampleState.tasks
  ∧ (poolWait sampleState false).1 = { sampleState with tasks := [] } :=
  (wait_drain_spec sampleState false).2.1 rfl

/-! ## Claim C2: the wait-time increment -/

/-- Claim C2 counterexample: with `wait_start = 0`, `wait_end = 1`,
`start_time = 10`, the claimed contribution is `max(0, 1 − 10) = 0`, but
line 110's unsigned subtraction wraps and adds `2 ^ 64 − 9`. -/
theorem wait_increment_cex :
    waitIncrement 0 1 10 = 2 ^ 64 - 9 ∧ waitIncrement 0 1 10 ≠ 0 := by
  constructor <;> decide

/-- Claim C2 amended: whenever `wait_end ≥ max(wait_start, start_time)`, the
amount added to `total_wait_time` equals
`wait_end − max(wait_start, start_time)`, which there coincides with the
claimed `max(0, wait_end − max(wait_start, start_time))`; without that
bound (possible only when `start_time` exceeds `wait_end`, e.g. while
`start_time` is still uninitialized) the uint64 subtraction wraps instead
of clamping to 0. -/
theorem wait_increment_spec (ws we st : Nat) (hwe : we < U64)
    (h : max ws st ≤ we) :
    waitIncrement ws we st = we - max ws st
  ∧ (waitIncrement ws we st : Int) = max 0 ((we : Int) - max (ws : Int) (st : Int)) := by
  have hm : max ws st < U64 := lt_of_le_of_lt h hwe
  have h1 : waitIncrement ws we st = we - max ws st := by
    unfold waitIncrement u64sub
    rw [Nat.mod_eq_of_lt hwe, Nat.mod_eq_of_lt hm]
    have h2 : we + (U64 - max ws st) = U64 + (we - max ws st) := by omega
    rw [h2, Nat.add_mod_left, Nat.mod_eq_of_lt (by omega)]
  refine ⟨h1, ?_⟩
  have h4 : max (ws : Int) (st : Int) ≤ (we : Int) := by
    rw [← Nat.cast_max]
    exact_mod_cast h
  rw [h1, Nat.cast_sub h, Nat.cast_max, max_eq_right (sub_nonneg.mpr h4)]

/-- Witness for the amended C2: a wait of `[2, 10]` with `start_time = 5`
contributes `10 − max(2, 5) = 5`. -/
theorem wait_increment_spec_witness :
    waitIncrement 2 10 5 = 10 - max 2 5 :=
  (wait_increment_spec 2 10 5 (by decide) (by decide)).1

/-! ## Claim C3: total_wait_time monotonicity -/

/-- Claim C3 counterexample: starting from a freshly constructed pool, a
wait accumulates 5 into `total_wait_time`, and the next `StartWorkers`
resets it to 0 — strictly below the previously observed value, so
`total_wait_time` is not monotonically non-decreasing over operation
sequences. -/
theorem total_wait_time_not_monotone_cex :
    (applyOps (mkThreadPool 1 0 0) [PoolOp.getIter, PoolOp.wake 0 5]).totalWaitTime = 5
  ∧ (applyOps (mkThreadPool 1 0 0)
      [PoolOp.getIter, PoolOp.wake 0 5, PoolOp.start 9]).totalWaitTime = 0 := by
  constructor <;> decide

/-- Claim C3 amended: `total_wait_time` is non-negative (it is an unsigned
counter), and no operation other than `StartWorkers` decreases it as long
as the uint64 accumulation of a wake does not overflow; `StartWorkers`,
however, resets it to 0 on every call. -/
theorem total_wait_time_monotone (s : PoolState) (op : PoolOp)
    (hns : ∀ now, op ≠ PoolOp.start now)
    (hof : ∀ ws we, op = PoolOp.wake ws we →
      s.totalWaitTime + waitIncrement ws we s.startTime < U64) :
    0 ≤ (applyOp s op).totalWaitTime
  ∧ s.totalWaitTime ≤ (applyOp s op).totalWaitTime
  ∧ (∀ (s2 : PoolState) (now : Nat), (applyOp s2 (PoolOp.start now)).totalWaitTime = 0) := by
  refine ⟨Nat.zero_le _, ?_, fun s2 now => rfl⟩
  cases op with
  | add t => exact le_of_eq rfl
  | start now => exact absurd rfl (hns now)
  | stop => exact le_of_eq rfl
  | tryGet =>
    cases hs : s.started <;> cases ht : s.tasks <;>
      simp [applyOp, tryGetTask, tryGetTaskLocked, hs, ht]
  | getIter =>
    by_cases hsd : s.shuttingDown = true
    · simp [applyOp, getTaskIter, hsd]
    · rw [Bool.not_eq_true] at hsd
      cases hs : s.started <;> cases ht : s.tasks <;>
        simp [applyOp, getTaskIter, tryGetTaskLocked, hsd, hs, ht]
  | wake ws we =>
    have h1 := hof ws we rfl
    simp only [applyOp, getTaskWake, u64add]
    rw [Nat.mod_eq_of_lt h1]
    exact Nat.le_add_right _ _

/-- Witness for the amended C3: `AddTask` does not decrease
`total_wait_time`. -/
theorem total_wait_time_monotone_witness :
    sampleState.totalWaitTime ≤ (applyOp sampleState (PoolOp.add 3)).totalWaitTime :=
  (total_wait_time_monotone sampleState (PoolOp.add 3)
    (fun now h => by cases h) (fun ws we h => by cases h)).2.1

/-! ## Claim C10: uninitialized start_time and total_wait_time -/

/-- Claim C10: the constructor determines `started`, `shutting_down`,
`waiting_count` (and the empty queue) regardless of the junk occupying the
uninitialized members, but the constructed state itself is not determined
— `start_time` and `total_wait_time` keep whatever junk was in memory —
and a worker that blocks inside `GetTask` before the first `StartWorkers`
accumulates a `total_wait_time` that depends on that junk. -/
theorem constructor_uninitialized (n : Nat) :
    (∀ j1 j2, (mkThreadPool n j1 j2).started = false
      ∧ (mkThreadPool n j1 j2).shuttingDown = false
      ∧ (mkThreadPool n j1 j2).waitingCount = 0
      ∧ (mkThreadPool n j1 j2).tasks = [])
  ∧ (∃ j1 j2 k1 k2, mkThreadPool n j1 j2 ≠ mkThreadPool n k1 k2)
  ∧ (∃ j k, (getTaskWake (mkThreadPool n j 0) 0 5).totalWaitTime
      ≠ (getTaskWake (mkThreadPool n k 0) 0 5).totalWaitTime) := by
  refine ⟨fun j1 j2 => ⟨rfl, rfl, rfl, rfl⟩, ⟨0, 0, 3, 0, ?_⟩, ⟨0, 3, ?_⟩⟩
  · intro h
    have h1 := congrArg PoolState.startTime h
    simp [mkThreadPool] at h1
  · show u64add 0 (waitIncrement 0 5 0) ≠ u64add 0 (waitIncrement 0 5 3)
    decide

/-- Witness for C10 at a concrete thread count. -/
theorem constructor_uninitialized_witness :
    (mkThreadPool 4 0 0).started = false :=
  ((constructor_uninitialized 4).1 0 0).1

/-! ## Claim C5: finalize exactly on the ref-count reaching 0 -/

/-- Claim C5: at both decrement sites of the work-stealing worker loop
(victim after `StealFrom`, own task at end of cycle — the two sites are
textually identical and share this model), `Finalize` is called iff the
decrement performed under the steal lock brings `ref_count` to 0, the
`Finalize` event comes strictly after the lock-release event, and — under
the reachability invariant that every `ref_count` operation happens while
the count is at least 1 — any complete history that ends with count 0
performs exactly one `Finalize`. -/
theorem steal_finalize_spec :
    (∀ c : Nat, StealEvent.finalizeTask ∈ (decrementAndMaybeFinalize c).2 ↔ c - 1 = 0)
  ∧ (∀ c : Nat, StealEvent.finalizeTask ∈ (decrementAndMaybeFinalize c).2 →
      (decrementAndMaybeFinalize c).2.indexOf StealEvent.releaseStealLock
        < (decrementAndMaybeFinalize c).2.indexOf StealEvent.finalizeTask)
  ∧ (∀ (ops : List RefOp) (c : Nat), 1 ≤ c → validRefOps c ops = true →
      (runRefOps c ops).1 = 0 → (runRefOps c ops).2 = 1) := by
  refine ⟨?_, ?_, ?_⟩
  · intro c
    by_cases h : c - 1 = 0 <;> simp [decrementAndMaybeFinalize, decRef, h]
  · intro c hmem
    by_cases h : c - 1 = 0
    · simp only [decrementAndMaybeFinalize, decRef, h]
      decide
    · simp [decrementAndMaybeFinalize, decRef, h] at hmem
  · intro ops
    induction ops with
    | nil =>
      intro c hc hv hz
      simp [runRefOps] at hz
      omega
    | cons op rest ih =>
      intro c hc hv hz
      cases op with
      | inc =>
        simp only [validRefOps, Bool.and_eq_true, decide_eq_true_eq] at hv
        simp only [runRefOps] at hz ⊢
        exact ih (c + 1) (by omega) hv.2 hz
      | dec =>
        simp only [validRefOps, Bool.and_eq_true, decide_eq_true_eq] at hv
        by_cases h1 : c = 1
        · subst h1
          cases rest with
          | nil => decide
          | cons op2 r2 =>
            exfalso
            have hv2 := hv.2
            cases op2 <;> simp [validRefOps] at hv2
        · have hne : ¬(c - 1 = 0) := by omega
          simp only [runRefOps, decRef] at hz ⊢
          simp only [beq_iff_eq, hne, if_false, Nat.zero_add]
          exact ih (c - 1) (by omega) hv.2 hz

/-- Witness for C5: the history of scenario S3 — the owner registers the
task (count 1), one stealer increments and decrements, the owner drops the
last reference — finalizes exactly once. -/
theorem steal_finalize_spec_witness :
    (runRefOps 1 [RefOp.inc, RefOp.dec, RefOp.dec]).2 = 1 :=
  steal_finalize_spec.2.2 [RefOp.inc, RefOp.dec, RefOp.dec] 1 (by decide) (by decide)
    (by decide)

/-! ## Claim C6: FindTaskToStealFrom -/

/-- Reading a worker's `task_` at an in-range index. -/
theorem getD_of_lt {ws : List (Option Nat)} {i : Nat} (h : i < ws.length) :
    ws.getD i none = ws[i] := by
  rw [List.getD_eq_getElem?_getD, List.getElem?_eq_getElem h]
  rfl

/-- The cursor update of one scan step — increment, then subtract
`thread_count` when it is reached — is exactly increment mod the worker
count, given the in-range invariant. -/
theorem findLoop_step_idx (ws : List (Option Nat)) (idx : Nat) (h : idx < ws.length) :
    (if ws.length ≤ idx + 1 then idx + 1 - ws.length else idx + 1)
      = (idx + 1) % ws.length := by
  by_cases h1 : ws.length ≤ idx + 1
  · have h2 : idx + 1 = ws.length := by omega
    simp [h1, h2, Nat.mod_self]
  · have h2 : idx + 1 < ws.length := by omega
    simp [h1, Nat.mod_eq_of_lt h2]

/-- Characterization of the scan loop: with fuel `f` and an in-range
cursor, either every examined slot `(idx+1) % n, …, (idx+f) % n` was null
and the loop returns none with the cursor advanced `f` steps, or the
result is the first non-null slot in that order, with the cursor stopped
on it. -/
theorem findLoop_spec (ws : List (Option Nat)) :
    ∀ (fuel idx : Nat), idx < ws.length →
      ((findLoop ws idx fuel).1 = none →
        (findLoop ws idx fuel).2 = (idx + fuel) % ws.length
        ∧ ∀ j, 1 ≤ j → j ≤ fuel → ws.getD ((idx + j) % ws.length) none = none)
    ∧ (∀ t, (findLoop ws idx fuel).1 = some t →
        ∃ k, 1 ≤ k ∧ k ≤ fuel ∧ ws.getD ((idx + k) % ws.length) none = some t
          ∧ (findLoop ws idx fuel).2 = (idx + k) % ws.length
          ∧ ∀ j, 1 ≤ j → j < k → ws.getD ((idx + j) % ws.length) none = none) := by
  intro fuel
  induction fuel with
  | zero =>
    intro idx h
    refine ⟨fun _ => ⟨?_, fun j hj1 hj2 => by omega⟩, fun t ht => by simp [findLoop] at ht⟩
    simp [findLoop, Nat.mod_eq_of_lt h]
  | succ fuel ih =>
    intro idx h
    have hn : 0 < ws.length := lt_of_le_of_lt (Nat.zero_le idx) h
    have hstep := findLoop_step_idx ws idx h
    have hidx2 : (idx + 1) % ws.length < ws.length := Nat.mod_lt _ hn
    cases hg : ws.getD ((idx + 1) % ws.length) none with
    | some t0 =>
      have hred : findLoop ws idx (fuel + 1) = (some t0, (idx + 1) % ws.length) := by
        simp only [findLoop]
        rw [hstep, hg]
      refine ⟨fun hnone => ?_, fun t ht => ?_⟩
      · rw [hred] at hnone
        simp at hnone
      · rw [hred] at ht
        simp at ht
        subst ht
        exact ⟨1, le_refl 1, by omega, hg, by rw [hred], fun j hj1 hj2 => by omega⟩
    | none =>
      have hred : findLoop ws idx (fuel + 1) = findLoop ws ((idx + 1) % ws.length) fuel := by
        simp only [findLoop]
        rw [hstep, hg]
      have ih2 := ih ((idx + 1) % ws.length) hidx2
      refine ⟨fun hnone => ?_, fun t ht => ?_⟩
      · rw [hred] at hnone
        obtain ⟨hc, hall⟩ := ih2.1 hnone
        constructor
        · rw [hred, hc, Nat.mod_add_mod]
          congr 1
          omega
        · intro j hj1 hj2
          by_cases hj : j = 1
          · subst hj
            exact hg
          · have h3 := hall (j - 1) (by omega) (by omega)
            rw [Nat.mod_add_mod] at h3
            rw [show (idx + 1) + (j - 1) = idx + j by omega] at h3
            exact h3
      · rw [hred] at ht
        obtain ⟨k, hk1, hk2, hk3, hk4, hk5⟩ := ih2.2 t ht
        rw [Nat.mod_add_mod, show (idx + 1) + k = idx + (k + 1) by omega] at hk3
        rw [hred, hk4]
        refine ⟨k + 1, by omega, by omega, hk3, by rw [Nat.mod_add_mod]; congr 1; omega, ?_⟩
        intro j hj1 hjk
        by_cases hj : j = 1
        · subst hj
          exact hg
        · have h3 := hk5 (j - 1) (by omega) (by omega)
          rw [Nat.mod_add_mod] at h3
          rw [show (idx + 1) + (j - 1) = idx + j by omega] at h3
          exact h3

/-- Every worker index is reached by some scan offset in `[1, n]`. -/
theorem scan_covers (n idx m : Nat) (hidx : idx < n) (hm : m < n) :
    ∃ j, 1 ≤ j ∧ j ≤ n ∧ (idx + j) % n = m := by
  by_cases hc : idx < m
  · exact ⟨m - idx, by omega, by omega,
      by rw [show idx + (m - idx) = m by omega]; exact Nat.mod_eq_of_lt hm⟩
  · refine ⟨m + n - idx, by omega, by omega, ?_⟩
    rw [show idx + (m + n - idx) = m + n by omega, Nat.add_mod_right]
    exact Nat.mod_eq_of_lt hm

/-- Claim C6: `FindTaskToStealFrom` advances `steal_cursor` by one modulo
the worker count per candidate examined, examines at most worker-count
candidates in one call — the result, when non-null, is the first non-null
`current_task` at offsets `1..k ≤ n` past the incoming cursor, with the
returned (persisted) cursor stopped on it — it returns none exactly when
every worker's `current_task` is null (so the scan covers every index and
in particular does not skip the calling worker), and the returned cursor is
again in range. -/
theorem findTaskToStealFrom_spec (ws : List (Option Nat)) (idx : Nat)
    (h : idx < ws.length) :
    ((findTaskToStealFrom ws idx).1 = none ↔ ∀ o ∈ ws, o = none)
  ∧ (∀ t, (findTaskToStealFrom ws idx).1 = some t →
      ∃ k, 1 ≤ k ∧ k ≤ ws.length
        ∧ ws.getD ((idx + k) % ws.length) none = some t
        ∧ (findTaskToStealFrom ws idx).2 = (idx + k) % ws.length
        ∧ ∀ j, 1 ≤ j → j < k → ws.getD ((idx + j) % ws.length) none = none)
  ∧ (findTaskToStealFrom ws idx).2 < ws.length := by
  have hn : 0 < ws.length := lt_of_le_of_lt (Nat.zero_le idx) h
  have hmain := findLoop_spec ws ws.length idx h
  simp only [findTaskToStealFrom]
  refine ⟨⟨?_, ?_⟩, hmain.2, ?_⟩
  · intro hnone o ho
    obtain ⟨m, hm, hget⟩ := List.mem_iff_getElem.mp ho
    obtain ⟨j, hj1, hj2, hj3⟩ := scan_covers ws.length idx m h hm
    have hgd := (hmain.1 hnone).2 j hj1 hj2
    rw [hj3, getD_of_lt hm, hget] at hgd
    exact hgd
  · intro hall
    rcases hres : (findLoop ws idx ws.length).1 with _ | t
    · rfl
    · exfalso
      obtain ⟨k, _, _, hk3, _, _⟩ := hmain.2 t hres
      have hlt : (idx + k) % ws.length < ws.length := Nat.mod_lt _ hn
      rw [getD_of_lt hlt] at hk3
      have := hall _ (List.getElem_mem hlt)
      rw [this] at hk3
      exact Option.noConfusion hk3
  · rcases hres : (findLoop ws idx ws.length).1 with _ | t
    · rw [(hmain.1 hres).1]
      exact Nat.mod_lt _ hn
    · obtain ⟨k, _, _, _, hk4, _⟩ := hmain.2 t hres
      rw [hk4]
      exact Nat.mod_lt _ hn

/-- Witness for C6: in a two-worker pool where only worker 1 publishes a
task, the scan starting at cursor 0 returns it and leaves the cursor in
range. -/
theorem findTaskToStealFrom_spec_witness :
    ((findTaskToStealFrom [none, some 5] 0).1 = none
      ↔ ∀ o ∈ ([none, some 5] : List (Option Nat)), o = none)
  ∧ (findTaskToStealFrom [none, some 5] 0).2 < 2 :=
  ⟨(findTaskToStealFrom_spec [none, some 5] 0 (by decide)).1,
   (findTaskToStealFrom_spec [none, some 5] 0 (by decide)).2.2⟩

end ThreadPoolModel
